import Mathlib

/-!
Verification of the OpenMate window-selection engine (`openmate.py`).

The plugin's `OpenMateCommand.run` method decides, for a requested path and
the snapshot of open editor windows, which window should display the path and
which editor operations to issue.  We embed the decision algorithm shallowly:

* Python strings are modelled as `List Char` (`Str`); the path separator is
  the POSIX `'/'` as in the source environment.
* `os.path.dirname`, `os.path.expanduser`, `os.path.join`, `str.rstrip` and
  `str.split` are embedded faithfully from their POSIX `os.path` definitions.
* Python's `sorted` is a stable sort; it is modelled by a stable insertion
  sort (`pySorted`), inserting each later element after existing ties.
* The filesystem is modelled by its observable snapshot: the set of paths for
  which `os.path.isdir` holds and, for each directory, the list of
  `(root, dirs, files)` triples that `os.walk` yields in top-down order.
* Editor operations (`focus_view`, `open_file`, `run_command`,
  `set_project_data` folder attachment, window creation, the `focus` window
  protocol) are recorded as an `Event` trace; `run` returns the trace, or an
  error when the Python code would raise (`os.path.dirname(None)` raises
  `TypeError` when a view has no file name).
* `win is not active_window` is modelled as window-id inequality (window ids
  are unique in a snapshot and the active id belongs to the snapshot).
-/

/-- Python `str`, modelled as a list of characters. -/
abbrev Str := List Char

/-- `os.path.sep` on the POSIX platforms the plugin targets. -/
def sep : Char := '/'

/-- Python `path.rstrip(os.path.sep)`: drop all trailing separators. -/
def rstripSep (p : Str) : Str :=
  (p.reverse.dropWhile (fun c => c == sep)).reverse

/-- `posixpath.dirname`: everything up to (excluding) the last separator,
with trailing separators stripped unless the head is all separators. -/
def dirname (p : Str) : Str :=
  let head := (p.reverse.dropWhile (fun c => !(c == sep))).reverse
  if head ≠ [] ∧ ¬ (head.all (fun c => c == sep)) then rstripSep head else head

/-- `posixpath.expanduser` restricted to the `~` (current user) form; a
`~user` form would consult the account database, which the plugin's default
settings never use, so it is returned unchanged as for an unknown account. -/
def expanduser (home : Str) (p : Str) : Str :=
  match p with
  | [] => []
  | c :: rest =>
    if c = '~' then
      if rest = [] ∨ rest.head? = some sep then
        let r := rstripSep home ++ rest
        if r = [] then [sep] else r
      else c :: rest
    else c :: rest

/-- `posixpath.join` for two components. -/
def joinPath (a b : Str) : Str :=
  if b.head? = some sep then b
  else if a = [] ∨ a.getLast? = some sep then a ++ b
  else a ++ sep :: b

/-- The containment test from `run` (line 100):
`(path + os.path.sep).startswith(folder + os.path.sep)`. -/
def isUnderOrEqual (folder path : Str) : Bool :=
  (folder ++ [sep]).isPrefixOf (path ++ [sep])

/-- Lexicographic (code-point) strict comparison of Python strings. -/
def strLt : Str → Str → Bool
  | [], [] => false
  | [], _ :: _ => true
  | _ :: _, [] => false
  | a :: as, b :: bs => if a < b then true else if b < a then false else strLt as bs

/-- Non-strict string comparison used to model Python's `sorted`. -/
def strLe (a b : Str) : Bool := ! strLt b a

/-- Insert `x` into `acc` after all elements `y` with `le y x` (so a run of
ties keeps its original order: stable insertion). -/
def insertSorted (le : α → α → Bool) (x : α) : List α → List α
  | [] => [x]
  | y :: ys => if le y x then y :: insertSorted le x ys else x :: y :: ys

/-- Python `sorted`: a stable sort, modelled by left-to-right stable
insertion. -/
def pySorted (le : α → α → Bool) (l : List α) : List α :=
  l.foldl (fun acc x => insertSorted le x acc) []

/-- Length of the longest common prefix of two segment lists (the `shared`
quantity of the specification's `Distance`). -/
def commonPrefixLen [DecidableEq α] : List α → List α → Nat
  | a :: as, b :: bs => if a = b then commonPrefixLen as bs + 1 else 0
  | _, _ => 0

/-- The `for prefix_len in range(...)` loop of `path_distance`: walk the
index list; break with the current index when the two `prefix_len + 1`
prefixes differ, otherwise remember the index and continue; when the range is
exhausted the loop variable keeps its last value. -/
def pyBreakLoop (as bs : List Str) : List Nat → Nat → Nat
  | [], last => last
  | k :: ks, _ => if as.take (k + 1) ≠ bs.take (k + 1) then k else pyBreakLoop as bs ks k

/-- `OpenMateCommand.path_distance` (lines 221-237): split both paths on the
separator, swap so the first part list is the shorter, run the break loop,
and combine.  The `a_parts`/`b_parts` locals of the source are inlined. -/
def path_distance (a b : Str) : Int :=
  if (a.splitOn sep).length > (b.splitOn sep).length then
    ((b.splitOn sep).length : Int) + ((a.splitOn sep).length : Int)
      - 2 * (pyBreakLoop (b.splitOn sep) (a.splitOn sep)
          (List.range ((b.splitOn sep).length + 1)) 0 : Int)
  else
    ((a.splitOn sep).length : Int) + ((b.splitOn sep).length : Int)
      - 2 * (pyBreakLoop (a.splitOn sep) (b.splitOn sep)
          (List.range ((a.splitOn sep).length + 1)) 0 : Int)

/-- One open editor view: Sublime's `view.file_name()` is `None` for views
that have no file on disk (unsaved buffers). -/
structure View where
  file : Option Str
deriving DecidableEq, Repr

/-- One editor window: its id, its project folders (`win.folders()`), and its
views (`win.views()`). -/
structure Window where
  wid : Nat
  folders : List Str
  views : List View
deriving DecidableEq, Repr

/-- The plugin settings read at module load. -/
structure Settings where
  single_orphan_window : Bool
  orphan_sibling_opens_folder : Bool
  never_implicitly_open_folders : List Str
deriving DecidableEq, Repr

/-- Filesystem snapshot: which paths are directories, and the
`(root, dirs, files)` triples `os.walk` yields per directory, in the
top-down order of the walk (file and subdirectory name order inside a triple
is the `os.scandir` snapshot order, which `os.walk` does not sort). -/
structure FS where
  dirPaths : List Str
  walks : List (Str × List (Str × List Str × List Str))
deriving Repr

/-- `os.path.isdir`. -/
def FS.isdir (fs : FS) (p : Str) : Bool := decide (p ∈ fs.dirPaths)

/-- `os.walk p` as recorded in the snapshot (empty for a non-directory). -/
def FS.walk (fs : FS) (p : Str) : List (Str × List Str × List Str) :=
  (((fs.walks.find? (fun e => e.1 == p)).map (fun e => e.2)).getD [])

/-- All files appearing anywhere in the `os.walk` output for `p`, as full
paths. -/
def FS.walkFiles (fs : FS) (p : Str) : List Str :=
  (fs.walk p).flatMap (fun t => t.2.2.map (fun fn => joinPath t.1 fn))

/-- Name of the `reveal_in_side_bar` window command. -/
def revealCmd : String := "reveal_in_side_bar"

/-- Name of the `close` window command. -/
def closeCmd : String := "close"

/-- The editor operations `run` issues, in order. `focusWin` abstracts the
`focus` method's three-call focus-window protocol; `attachFolder` abstracts
the `project_data` read-append-write that adds one folder; `logNoFile` is the
`print` fallback when a directory holds no file to reveal. -/
inductive Event where
  | focusView (wid : Nat) (file : Str)
  | focusWin (wid : Nat)
  | openFile (wid : Nat) (file : Str)
  | runCommand (wid : Nat) (cmd : String)
  | attachFolder (wid : Nat) (folder : Str)
  | newWindow
  | logNoFile (p : Str)
deriving DecidableEq, Repr

/-- `win.find_open_file(p)` returns a truthy view iff some view of the window
has exactly this file path. -/
def Window.findOpenFile (w : Window) (p : Str) : Bool :=
  w.views.any (fun v => v.file == some p)

/-- The `sort_key` closure of `run` (lines 58-64): 0 for the current window,
1 for a window with folders, 2 for an orphan window. -/
def sort_key (active_id : Nat) (w : Window) : Nat :=
  if w.wid = active_id then 0 else if w.folders ≠ [] then 1 else 2

/-- `sorted(sublime.windows(), key=sort_key)` (line 66). -/
def rankWindows (active_id : Nat) (ws : List Window) : List Window :=
  pySorted (fun a b => decide (sort_key active_id a ≤ sort_key active_id b)) ws

/-- The per-view `folders.add(os.path.dirname(view.file_name()))` loop of
lines 90-91; raises as Python's `os.path.dirname(None)` does when a view has
no file name. -/
def orphanDirs : List View → Except String (List Str)
  | [] => .ok []
  | v :: vs =>
    match v.file with
    | none => .error "TypeError: expected str, not NoneType"
    | some f =>
      match orphanDirs vs with
      | .error e => .error e
      | .ok rest => .ok (dirname f :: rest)

/-- Lines 80-92: a window's `(has_folders, folders)` pair — its project
folders when it has any; otherwise, unless `single-orphan-window` is set, the
sorted distinct containing directories of its open files. -/
def windowFolders (st : Settings) (w : Window) : Except String (Bool × List Str) :=
  if w.folders ≠ [] then .ok (true, w.folders)
  else if st.single_orphan_window then .ok (false, [])
  else
    match orphanDirs w.views with
    | .error e => .error e
    | .ok ds => .ok (false, pySorted strLe ds.dedup)

/-- The folder-match condition of lines 94-117 for one candidate folder. -/
def matchCond (its_a_dir : Bool) (dir_path path : Str) (has_folders : Bool)
    (folder : Str) : Bool :=
  (has_folders && isUnderOrEqual folder path)
  || (!has_folders && its_a_dir && isUnderOrEqual dir_path folder)
  || (!has_folders && !its_a_dir && folder == dir_path)

/-- Lines 159-168: scan the sorted files of one walk triple for a view that
is already open in the window; answer the first hit's full path. -/
def sortedFirstOpen (w : Window) (root : Str) (files : List Str) : Option Str :=
  (pySorted strLe files).findSome? (fun fn =>
    let fp := joinPath root fn
    if w.findOpenFile fp then some fp else none)

/-- After the open-reveal-close branch sets `found` without breaking the
outer walk loop, Python scans exactly one more walk triple for an open file
before `if found: break` fires; this models that residual scan. -/
def scanNextEvents (w : Window) : List (Str × List Str × List Str) → List Event
  | [] => []
  | (root, _, files) :: _ =>
    match sortedFirstOpen w root files with
    | some fp => [Event.focusView w.wid fp, Event.runCommand w.wid revealCmd]
    | none => []

/-- Lines 154-181: the directory-reveal walk.  For each `os.walk` triple in
order: focus and reveal the first already-open file among the triple's sorted
files; otherwise, if the triple has files, open the sorted-first one, reveal
it, close it again and (because the outer loop is not broken) scan the next
triple; if nothing was ever found, log. -/
def walkReveal (w : Window) (path : Str) : List (Str × List Str × List Str) → List Event
  | [] => [Event.logNoFile path]
  | (root, _, files) :: rest =>
    match sortedFirstOpen w root files with
    | some fp => [Event.focusView w.wid fp, Event.runCommand w.wid revealCmd]
    | none =>
      if files ≠ [] then
        (match pySorted strLe files with
         | f0 :: _ => [Event.openFile w.wid (joinPath root f0),
                       Event.runCommand w.wid revealCmd,
                       Event.runCommand w.wid closeCmd]
         | [] => [])
        ++ scanNextEvents w rest
      else walkReveal w path rest

/-- Lines 118-185: the actions for the first window matched by the folder
scan. -/
def dispatchEvents (st : Settings) (fs : FS) (avoid : List Str)
    (its_a_dir : Bool) (path parent_path : Str) (active_id : Nat)
    (w : Window) (has_folders : Bool) (folders : List Str) : List Event :=
  let core :=
    if !its_a_dir then
      (if !has_folders && st.orphan_sibling_opens_folder
          && !(decide (parent_path ∈ avoid)) then
        [Event.attachFolder w.wid parent_path]
      else [])
      ++ [Event.openFile w.wid path, Event.runCommand w.wid revealCmd]
    else if !has_folders || !(decide (path ∈ folders)) then
      [Event.attachFolder w.wid path]
    else
      walkReveal w path (fs.walk path)
  core ++ (if w.wid ≠ active_id then [Event.focusWin w.wid] else [])

/-- Lines 79-185: scan the ranked windows for the first folder match and
dispatch on it; `none` when no window matches. -/
def secondPhase (st : Settings) (fs : FS) (avoid : List Str)
    (its_a_dir : Bool) (path dir_path parent_path : Str) (active_id : Nat) :
    List Window → Except String (Option (List Event))
  | [] => .ok none
  | w :: rest =>
    match windowFolders st w with
    | .error e => .error e
    | .ok (hf, folders) =>
      if folders.any (matchCond its_a_dir dir_path path hf) then
        .ok (some (dispatchEvents st fs avoid its_a_dir path parent_path active_id w hf folders))
      else secondPhase st fs avoid its_a_dir path dir_path parent_path active_id rest

/-- Lines 198-208: create a new window (the editor assigns it `fresh_id`)
and attach the folder or open the file there. -/
def newWindowEvents (fresh_id : Nat) (its_a_dir : Bool) (path : Str) : List Event :=
  Event.newWindow ::
    (if its_a_dir then [Event.attachFolder fresh_id path]
     else [Event.openFile fresh_id path])

/-- `OpenMateCommand.run` (lines 35-208) as an event-trace function.
`home` is the user's home directory (for `os.path.expanduser`), `active_id`
the id of `sublime.active_window()`, `fresh_id` the id the editor gives a
newly created window. -/
def run (fs : FS) (st : Settings) (home : Str) (windows : List Window)
    (active_id : Nat) (fresh_id : Nat) (path0 : Str) : Except String (List Event) :=
  let path := rstripSep path0
  let parent_path := dirname path
  let its_a_dir := fs.isdir path
  let dir_path := if its_a_dir then path else parent_path
  let avoid := st.never_implicitly_open_folders.map (expanduser home)
  let window_list := rankWindows active_id windows
  let firstHit := if its_a_dir then none
                  else window_list.find? (fun w => w.findOpenFile path)
  match firstHit with
  | some w =>
    .ok ([Event.focusView w.wid path]
         ++ (if w.wid ≠ active_id then [Event.focusWin w.wid] else []))
  | none =>
    match secondPhase st fs avoid its_a_dir path dir_path parent_path active_id window_list with
    | .error e => .error e
    | .ok (some evs) => .ok evs
    | .ok none =>
      if st.single_orphan_window && !its_a_dir then
        match window_list.filter (fun w => w.folders == ([] : List Str)) with
        | w :: _ =>
          .ok ([Event.openFile w.wid path]
               ++ (if w.wid ≠ active_id then [Event.focusWin w.wid] else []))
        | [] => .ok (newWindowEvents fresh_id its_a_dir path)
      else .ok (newWindowEvents fresh_id its_a_dir path)

/-- A window paired with the editor's record of its focused view's file. -/
structure EWindow where
  win : Window
  focused : Option Str
deriving DecidableEq, Repr

/-- The files open in a window (nameless views carry no file). -/
def openFilesOf (w : Window) : List Str :=
  w.views.filterMap (fun v => v.file)

/-- Editor-side meaning of one event: `openFile` focuses an existing view or
appends a new one; `close` removes the focused view; `attachFolder` appends a
project folder; focus and reveal commands leave window contents unchanged. -/
def applyEvent (ews : List EWindow) (e : Event) : List EWindow :=
  match e with
  | .focusView wid f =>
    ews.map (fun ew => if ew.win.wid = wid then { ew with focused := some f } else ew)
  | .openFile wid f =>
    ews.map (fun ew =>
      if ew.win.wid = wid then
        if decide (f ∈ openFilesOf ew.win) then { ew with focused := some f }
        else { win := { ew.win with views := ew.win.views ++ [⟨some f⟩] },
               focused := some f }
      else ew)
  | .runCommand wid cmd =>
    if cmd = closeCmd then
      ews.map (fun ew =>
        if ew.win.wid = wid ∧ ew.focused.isSome then
          { win := { ew.win with
                     views := ew.win.views.eraseP (fun v => v.file == ew.focused) },
            focused := none }
        else ew)
    else ews
  | .attachFolder wid f =>
    ews.map (fun ew =>
      if ew.win.wid = wid then
        { ew with win := { ew.win with folders := ew.win.folders ++ [f] } }
      else ew)
  | _ => ews

/-- Apply a whole event trace. -/
def applyEvents (ews : List EWindow) (evs : List Event) : List EWindow :=
  evs.foldl applyEvent ews

/-- The editor state at the start of a resolution. -/
def initEW (ws : List Window) : List EWindow :=
  ws.map (fun w => ⟨w, none⟩)

/-- String literal to `Str`. -/
def str (s : String) : Str := s.toList

/-! ### Sorting lemmas: `pySorted` is the stable bucket order -/

theorem insertSorted_mem {le : α → α → Bool} {x y : α} {l : List α} :
    x ∈ insertSorted le y l ↔ x = y ∨ x ∈ l := by
  induction l with
  | nil => simp [insertSorted]
  | cons z zs ih =>
    rw [insertSorted]
    by_cases h : le z y = true
    · rw [if_pos h]
      simp only [List.mem_cons, ih]
      tauto
    · rw [if_neg h]
      simp only [List.mem_cons]

theorem insertSorted_append_left {le : α → α → Bool} {x : α} (A B : List α)
    (hA : ∀ a ∈ A, le a x = true) :
    insertSorted le x (A ++ B) = A ++ insertSorted le x B := by
  induction A with
  | nil => rfl
  | cons a A' ih =>
    rw [List.cons_append, insertSorted, if_pos (hA a (List.mem_cons_self a A')),
      ih fun b hb => hA b (List.mem_cons_of_mem _ hb), List.cons_append]

theorem insertSorted_cons_of_gt {le : α → α → Bool} {x : α} (B : List α)
    (hB : ∀ b ∈ B, le b x = false) :
    insertSorted le x B = x :: B := by
  cases B with
  | nil => rfl
  | cons b bs => simp [insertSorted, hB b (List.mem_cons_self b bs)]

theorem insertSorted_append_all {le : α → α → Bool} {x : α} (B : List α)
    (hB : ∀ b ∈ B, le b x = true) :
    insertSorted le x B = B ++ [x] := by
  have h := @insertSorted_append_left _ le x B [] (by simpa using hB)
  simpa [insertSorted] using h

theorem pySorted_mem {le : α → α → Bool} {x : α} {l : List α} :
    x ∈ pySorted le l ↔ x ∈ l := by
  suffices h : ∀ (l acc : List α), x ∈ l.foldl (fun acc y => insertSorted le y acc) acc ↔ x ∈ acc ∨ x ∈ l by
    simpa [pySorted] using (h l []).trans (by simp)
  intro l
  induction l with
  | nil => simp
  | cons y ys ih =>
    intro acc
    rw [List.foldl_cons, ih]
    simp only [insertSorted_mem, List.mem_cons]
    tauto

/-- The specification's `Rank`: current window first, then project windows,
then orphan windows, each class in original snapshot order. -/
def specRankOrder (a : Nat) (l : List Window) : List Window :=
  l.filter (fun w => decide (sort_key a w = 0))
    ++ l.filter (fun w => decide (sort_key a w = 1))
    ++ l.filter (fun w => decide (sort_key a w = 2))

theorem sort_key_cases (a : Nat) (w : Window) :
    sort_key a w = 0 ∨ sort_key a w = 1 ∨ sort_key a w = 2 := by
  unfold sort_key
  split
  · exact Or.inl rfl
  split
  · exact Or.inr (Or.inl rfl)
  · exact Or.inr (Or.inr rfl)

theorem mem_filter_key {a i : Nat} {l : List Window} {w : Window}
    (h : w ∈ l.filter (fun w => decide (sort_key a w = i))) : sort_key a w = i :=
  of_decide_eq_true (List.mem_filter.mp h).2

theorem insertSorted_bucket_step (a : Nat) (x : Window) (p : List Window) :
    insertSorted (fun u v => decide (sort_key a u ≤ sort_key a v)) x (specRankOrder a p)
      = specRankOrder a (p ++ [x]) := by
  have hsing : ∀ i : Nat, List.filter (fun w => decide (sort_key a w = i)) [x]
      = if sort_key a x = i then [x] else [] := by
    intro i
    by_cases h : sort_key a x = i <;> simp [h]
  rcases sort_key_cases a x with hx | hx | hx
  · rw [specRankOrder, List.append_assoc,
      insertSorted_append_left _ _ (fun b hb => by
        simp [mem_filter_key hb, hx]),
      insertSorted_cons_of_gt _ (fun b hb => by
        rcases List.mem_append.mp hb with h | h <;>
          simp [mem_filter_key h, hx])]
    simp [specRankOrder, List.filter_append, hsing, hx]
  · rw [specRankOrder, List.append_assoc, ← List.append_assoc,
      insertSorted_append_left _ _ (fun b hb => by
        rcases List.mem_append.mp hb with h | h <;>
          simp [mem_filter_key h, hx]),
      insertSorted_cons_of_gt _ (fun b hb => by
        simp [mem_filter_key hb, hx])]
    simp [specRankOrder, List.filter_append, hsing, hx]
  · rw [specRankOrder,
      insertSorted_append_left _ _ (fun b hb => by
        rcases List.mem_append.mp hb with h | h <;>
          simp [mem_filter_key h, hx]),
      insertSorted_append_all _ (fun b hb => by
        simp [mem_filter_key hb, hx])]
    simp [specRankOrder, List.filter_append, hsing, hx]

theorem foldl_buckets (a : Nat) :
    ∀ (ws p : List Window),
      ws.foldl (fun acc x => insertSorted (fun u v => decide (sort_key a u ≤ sort_key a v)) x acc)
        (specRankOrder a p) = specRankOrder a (p ++ ws) := by
  intro ws
  induction ws with
  | nil => simp
  | cons x ws' ih =>
    intro p
    rw [List.foldl_cons, insertSorted_bucket_step, ih]
    simp

theorem rankWindows_eq_spec (a : Nat) (ws : List Window) :
    rankWindows a ws = specRankOrder a ws := by
  have h := foldl_buckets a ws []
  simpa [rankWindows, pySorted, specRankOrder] using h

/-! ### Claims C1 and C2 -/

/-- Claim C1: the claim states that `run` completes normally on every input,
including orphan windows whose views may lack a file name.  The code violates
this: with the default `single-orphan-window = false`, an orphan window
holding one nameless view (an unsaved buffer) makes line 91 evaluate
`os.path.dirname(view.file_name())` on `None`, which raises `TypeError`
instead of producing an action. -/
theorem claim_C1_totality_crash :
    run ⟨[], []⟩ ⟨false, true, []⟩ (str r"/home/u") [⟨1, [], [⟨none⟩]⟩] 1 2
      (str r"/x/y.txt")
      = Except.error "TypeError: expected str, not NoneType" := rfl

/-- Claim C2: window ranking is the stable bucket order — current window
first, then project windows, then orphan windows, original order inside each
class — and consequently, with a current window on `/a`, a non-current
project window on `/b` and request `/b/x.txt` not open anywhere, the `/b`
window is chosen. -/
theorem claim_C2_ranking :
    (∀ (a : Nat) (ws : List Window), rankWindows a ws = specRankOrder a ws)
    ∧ run ⟨[], []⟩ ⟨false, true, []⟩ (str r"/home/u")
        [⟨1, [str r"/a"], []⟩, ⟨2, [str r"/b"], []⟩] 1 3 (str r"/b/x.txt")
        = Except.ok [Event.openFile 2 (str r"/b/x.txt"),
            Event.runCommand 2 revealCmd, Event.focusWin 2] :=
  ⟨rankWindows_eq_spec, rfl⟩

/-! ### Claim C3: the containment test is whole-segment containment -/

theorem modifyHead_append_ne {A : List α} (B : List α) (g : α → α) (h : A ≠ []) :
    (A ++ B).modifyHead g = A.modifyHead g ++ B := by
  cases A with
  | nil => exact absurd rfl h
  | cons a A' => rfl

theorem splitOn_sep_append (xs ys : Str) :
    (xs ++ sep :: ys).splitOn sep = xs.splitOn sep ++ ys.splitOn sep := by
  induction xs with
  | nil => simp [List.splitOn, List.splitOnP_cons]
  | cons x xs' ih =>
    simp only [List.splitOn, List.cons_append, List.splitOnP_cons] at ih ⊢
    by_cases hx : (x == sep) = true
    · simp only [hx, if_true, ih, List.cons_append]
    · simp only [hx, if_false, Bool.false_eq_true, ih,
        modifyHead_append_ne _ _ (List.splitOnP_ne_nil _ xs')]

theorem intercalate_sep_append :
    ∀ (A : List Str), A ≠ [] → ∀ (B : List Str), B ≠ [] →
      [sep].intercalate (A ++ B) = [sep].intercalate A ++ sep :: [sep].intercalate B
  | [], h, _, _ => absurd rfl h
  | [a], _, [], hB => absurd rfl hB
  | [a], _, b :: B', _ => by
    simp [List.intercalate, List.intersperse]
  | a :: a' :: A'', _, B, hB => by
    have ih := intercalate_sep_append (a' :: A'') (by simp) B hB
    simp only [List.intercalate, List.cons_append] at ih ⊢
    simp only [List.intersperse_cons_cons, List.flatten_cons] at ih ⊢
    rw [ih]
    simp

theorem appendSep_prefix_iff (f t : Str) :
    (f ++ [sep]) <+: (t ++ [sep]) ↔ (t = f ∨ ∃ r : Str, t = f ++ sep :: r) := by
  constructor
  · rintro ⟨s, hs⟩
    rcases List.eq_nil_or_concat s with rfl | ⟨L, b, rfl⟩
    · left
      have hs' : f = t := by simpa using hs
      exact hs'.symm
    · right
      have hs' : (f ++ sep :: L) ++ [b] = t ++ [sep] := by
        simpa [List.concat_eq_append, List.append_assoc] using hs
      have h2 := List.append_inj' hs' (by simp)
      exact ⟨L, h2.1.symm⟩
  · rintro (rfl | ⟨r, rfl⟩)
    · exact List.prefix_refl _
    · refine ⟨r ++ [sep], ?_⟩
      simp

theorem splitOn_sep_ne_nil (xs : Str) : xs.splitOn sep ≠ [] := by
  simpa [List.splitOn] using List.splitOnP_ne_nil (fun c => c == sep) xs

theorem isUnderOrEqual_iff_descendant (f t : Str) :
    isUnderOrEqual f t = true ↔ (t = f ∨ ∃ r : Str, t = f ++ sep :: r) := by
  rw [isUnderOrEqual, List.isPrefixOf_iff_prefix]
  exact appendSep_prefix_iff f t

theorem isUnderOrEqual_iff_segments (f t : Str) :
    isUnderOrEqual f t = true ↔ f.splitOn sep <+: t.splitOn sep := by
  rw [isUnderOrEqual_iff_descendant]
  constructor
  · rintro (rfl | ⟨r, rfl⟩)
    · exact List.prefix_refl _
    · rw [splitOn_sep_append]
      exact List.prefix_append _ _
  · rintro ⟨xs, hxs⟩
    cases xs with
    | nil =>
      left
      have h : f.splitOn sep = t.splitOn sep := by simpa using hxs
      have hf := List.intercalate_splitOn f sep
      have ht := List.intercalate_splitOn t sep
      rw [← ht, ← h, hf]
    | cons x xs' =>
      right
      refine ⟨[sep].intercalate (x :: xs'), ?_⟩
      have ht := List.intercalate_splitOn t sep
      rw [← ht, ← hxs,
        intercalate_sep_append _ (splitOn_sep_ne_nil f) _ (by simp),
        List.intercalate_splitOn f sep]

/-- Claim C3: the containment test of line 100 accepts exactly the target
paths that equal the candidate root or descend from it — equivalently, whose
segment list extends the root's segment list — and in particular rejects the
partial-segment pair and accepts the true descendant. -/
theorem claim_C3_containment :
    (∀ f t : Str, isUnderOrEqual f t = true ↔ (t = f ∨ ∃ r : Str, t = f ++ sep :: r))
    ∧ (∀ f t : Str, isUnderOrEqual f t = true ↔ f.splitOn sep <+: t.splitOn sep)
    ∧ isUnderOrEqual (str r"/proj") (str r"/project2/file.txt") = false
    ∧ isUnderOrEqual (str r"/proj") (str r"/proj/sub/file.txt") = true :=
  ⟨isUnderOrEqual_iff_descendant, isUnderOrEqual_iff_segments, rfl, rfl⟩

/-! ### Claim C9: `path_distance` -/

theorem commonPrefixLen_le_left [DecidableEq α] :
    ∀ (as bs : List α), commonPrefixLen as bs ≤ as.length
  | [], _ => by simp [commonPrefixLen]
  | _ :: _, [] => by simp [commonPrefixLen]
  | a :: as, b :: bs => by
    by_cases h : a = b
    · simpa [commonPrefixLen, h] using commonPrefixLen_le_left as bs
    · simp [commonPrefixLen, h]

theorem commonPrefixLen_symm [DecidableEq α] :
    ∀ (as bs : List α), commonPrefixLen as bs = commonPrefixLen bs as
  | [], [] => rfl
  | [], _ :: _ => rfl
  | _ :: _, [] => rfl
  | a :: as, b :: bs => by
    by_cases h : a = b
    · simp [commonPrefixLen, h, commonPrefixLen_symm as bs]
    · have h' : ¬ b = a := fun hh => h hh.symm
      simp [commonPrefixLen, h, h']

theorem commonPrefixLen_self [DecidableEq α] :
    ∀ (as : List α), commonPrefixLen as as = as.length
  | [] => rfl
  | a :: as => by simp [commonPrefixLen, commonPrefixLen_self as]

theorem take_eq_of_le_commonPrefixLen [DecidableEq α] :
    ∀ (k : Nat) (as bs : List α), k ≤ commonPrefixLen as bs → as.take k = bs.take k
  | 0, _, _, _ => by simp
  | k + 1, [], bs, h => by simp [commonPrefixLen] at h
  | k + 1, _ :: _, [], h => by simp [commonPrefixLen] at h
  | k + 1, a :: as, b :: bs, h => by
    by_cases hab : a = b
    · simp only [commonPrefixLen, hab, if_true] at h
      subst hab
      simp only [List.take_succ_cons]
      rw [take_eq_of_le_commonPrefixLen k as bs (by omega)]
    · simp [commonPrefixLen, hab] at h

theorem commonPrefixLen_ge_of_take_eq [DecidableEq α] :
    ∀ (k : Nat) (as bs : List α), as.take k = bs.take k →
      min k as.length ≤ commonPrefixLen as bs
  | 0, _, _, _ => by simp
  | k + 1, [], bs, h => by simp
  | k + 1, a :: as, [], h => by simp at h
  | k + 1, a :: as, b :: bs, h => by
    simp only [List.take_succ_cons, List.cons.injEq] at h
    obtain ⟨hab, ht⟩ := h
    have ih := commonPrefixLen_ge_of_take_eq k as bs ht
    subst hab
    simp only [commonPrefixLen, eq_self_iff_true, if_true, List.length_cons]
    omega

theorem pyBreakLoop_range' :
    ∀ (n s : Nat) (as bs : List Str),
      1 ≤ s → s + n = as.length + 1 → as.length ≤ bs.length →
      as.take s = bs.take s →
      pyBreakLoop as bs (List.range' s n) (s - 1) = commonPrefixLen as bs := by
  intro n
  induction n with
  | zero =>
    intro s as bs hs hsum hlen htake
    have hs' : s = as.length + 1 := by omega
    subst hs'
    rw [List.take_of_length_le (by omega)] at htake
    have h1 := congrArg List.length htake
    simp only [List.length_take] at h1
    have hbs : bs.length = as.length := by omega
    have hab : as = bs := by
      rw [htake]
      exact List.take_of_length_le (by omega)
    show pyBreakLoop as bs (List.range' (as.length + 1) 0) (as.length + 1 - 1)
      = commonPrefixLen as bs
    rw [hab, commonPrefixLen_self]
    simp [List.range', pyBreakLoop]
  | succ n ih =>
    intro s as bs hs hsum hlen htake
    have hrange : List.range' s (n + 1) = s :: List.range' (s + 1) n := rfl
    rw [hrange, pyBreakLoop]
    by_cases hd : as.take (s + 1) ≠ bs.take (s + 1)
    · rw [if_pos hd]
      have h1 : min s as.length ≤ commonPrefixLen as bs :=
        commonPrefixLen_ge_of_take_eq s as bs htake
      have h2 : s ≤ as.length := by omega
      have h3 : commonPrefixLen as bs < s + 1 := by
        by_contra hc
        exact hd (take_eq_of_le_commonPrefixLen (s + 1) as bs (by omega))
      omega
    · rw [if_neg hd]
      have htake' : as.take (s + 1) = bs.take (s + 1) := not_ne_iff.mp hd
      have := ih (s + 1) as bs (by omega) (by omega) hlen htake'
      simpa using this

theorem pyBreakLoop_eq_cpl (as bs : List Str) (h : as.length ≤ bs.length) :
    pyBreakLoop as bs (List.range (as.length + 1)) 0 = commonPrefixLen as bs := by
  rw [List.range_eq_range']
  have hrange : List.range' 0 (as.length + 1) = 0 :: List.range' 1 as.length := rfl
  rw [hrange, pyBreakLoop]
  by_cases hd : as.take 1 ≠ bs.take 1
  · rw [if_pos hd]
    have h3 : commonPrefixLen as bs < 1 := by
      by_contra hc
      exact hd (take_eq_of_le_commonPrefixLen 1 as bs (by omega))
    omega
  · rw [if_neg hd]
    have := pyBreakLoop_range' as.length 1 as bs (le_refl 1) (by omega) h (not_ne_iff.mp hd)
    simpa using this

theorem splitOn_sep_injective {a b : Str} (h : a.splitOn sep = b.splitOn sep) :
    a = b := by
  have ha := List.intercalate_splitOn a sep
  have hb := List.intercalate_splitOn b sep
  rw [← ha, h, hb]

theorem path_distance_formula (a b : Str) :
    path_distance a b
      = ((a.splitOn sep).length : Int) + ((b.splitOn sep).length : Int)
        - 2 * (commonPrefixLen (a.splitOn sep) (b.splitOn sep) : Int) := by
  unfold path_distance
  by_cases hlen : (a.splitOn sep).length > (b.splitOn sep).length
  · rw [if_pos hlen, pyBreakLoop_eq_cpl _ _ (by omega),
      commonPrefixLen_symm]
    ring
  · rw [if_neg hlen, pyBreakLoop_eq_cpl _ _ (by omega)]

/-- Claim C9: `path_distance a b` equals
`len(segments a) + len(segments b) - 2 * shared` where `shared` is the
longest common segment-prefix length; it is symmetric, and zero exactly when
the two paths are equal. -/
theorem claim_C9_path_distance :
    (∀ a b : Str, path_distance a b
        = ((a.splitOn sep).length : Int) + ((b.splitOn sep).length : Int)
          - 2 * (commonPrefixLen (a.splitOn sep) (b.splitOn sep) : Int))
    ∧ (∀ a b : Str, path_distance a b = path_distance b a)
    ∧ (∀ a b : Str, path_distance a b = 0 ↔ a = b) := by
  refine ⟨path_distance_formula, ?_, ?_⟩
  · intro a b
    rw [path_distance_formula, path_distance_formula,
      commonPrefixLen_symm]
    ring
  · intro a b
    constructor
    · intro h
      rw [path_distance_formula] at h
      have h1 := commonPrefixLen_le_left (a.splitOn sep) (b.splitOn sep)
      have h2 := commonPrefixLen_le_left (b.splitOn sep) (a.splitOn sep)
      rw [commonPrefixLen_symm] at h2
      have hla : (a.splitOn sep).length = commonPrefixLen (a.splitOn sep) (b.splitOn sep) := by
        omega
      have hlb : (b.splitOn sep).length = commonPrefixLen (a.splitOn sep) (b.splitOn sep) := by
        omega
      have htk := take_eq_of_le_commonPrefixLen ((a.splitOn sep).length)
        (a.splitOn sep) (b.splitOn sep) (le_of_eq hla)
      rw [List.take_of_length_le (le_refl _),
        List.take_of_length_le (by omega)] at htk
      exact splitOn_sep_injective htk
    · rintro rfl
      rw [path_distance_formula, commonPrefixLen_self]
      ring

/-! ### Claims C4, C5, C10: the orphan sibling rule and its guard -/

theorem orphanDirs_named :
    ∀ (vs : List View), (∀ v ∈ vs, v.file.isSome) →
      orphanDirs vs = .ok (vs.filterMap (fun v => v.file.map dirname))
  | [], _ => rfl
  | v :: vs, h => by
    obtain ⟨f, hf⟩ := Option.isSome_iff_exists.mp (h v (List.mem_cons_self v vs))
    rw [orphanDirs, hf,
      orphanDirs_named vs (fun u hu => h u (List.mem_cons_of_mem _ hu))]
    simp [hf]

theorem rankWindows_singleton (a : Nat) (w : Window) : rankWindows a [w] = [w] := rfl

theorem orphan_sibling_run (fs : FS) (st : Settings) (home : Str) (w : Window)
    (fresh : Nat) (path : Str)
    (hsos : st.single_orphan_window = false)
    (hsib : st.orphan_sibling_opens_folder = true)
    (hpath : rstripSep path = path)
    (hdir : fs.isdir path = false)
    (horph : w.folders = [])
    (hnamed : ∀ v ∈ w.views, v.file.isSome)
    (hnotopen : w.findOpenFile path = false)
    (hmatch : w.views.any (fun v => v.file.map dirname == some (dirname path)) = true) :
    run fs st home [w] w.wid fresh path
      = .ok ((if dirname path ∈ st.never_implicitly_open_folders.map (expanduser home)
              then []
              else [Event.attachFolder w.wid (dirname path)])
             ++ [Event.openFile w.wid path, Event.runCommand w.wid revealCmd]) := by
  have hfolders : windowFolders st w
      = .ok (false, pySorted strLe ((w.views.filterMap (fun v => v.file.map dirname)).dedup)) := by
    rw [windowFolders, if_neg (by simp [horph]), if_neg (by simp [hsos]),
      orphanDirs_named w.views hnamed]
  have hmem : dirname path
      ∈ pySorted strLe ((w.views.filterMap (fun v => v.file.map dirname)).dedup) := by
    rw [pySorted_mem, List.mem_dedup]
    rw [List.any_eq_true] at hmatch
    obtain ⟨v, hv, hvf⟩ := hmatch
    obtain ⟨f, hf⟩ := Option.isSome_iff_exists.mp (hnamed v hv)
    refine List.mem_filterMap.mpr ⟨v, hv, ?_⟩
    rw [hf] at hvf ⊢
    simpa using hvf
  have hany : (pySorted strLe ((w.views.filterMap (fun v => v.file.map dirname)).dedup)).any
      (matchCond false (dirname path) path false) = true := by
    rw [List.any_eq_true]
    exact ⟨dirname path, hmem, by simp [matchCond]⟩
  have hsecond : secondPhase st fs (st.never_implicitly_open_folders.map (expanduser home))
      false path (dirname path) (dirname path) w.wid [w]
      = .ok (some (dispatchEvents st fs (st.never_implicitly_open_folders.map (expanduser home))
          false path (dirname path) w.wid w false
          (pySorted strLe ((w.views.filterMap (fun v => v.file.map dirname)).dedup)))) := by
    rw [secondPhase, hfolders]
    simp only [hany, if_true]
  have hdispatch : dispatchEvents st fs (st.never_implicitly_open_folders.map (expanduser home))
      false path (dirname path) w.wid w false
      (pySorted strLe ((w.views.filterMap (fun v => v.file.map dirname)).dedup))
      = (if dirname path ∈ st.never_implicitly_open_folders.map (expanduser home)
         then []
         else [Event.attachFolder w.wid (dirname path)])
        ++ [Event.openFile w.wid path, Event.runCommand w.wid revealCmd] := by
    rw [dispatchEvents]
    by_cases hg : dirname path ∈ st.never_implicitly_open_folders.map (expanduser home)
    · simp [hg, hsib]
    · simp [hg, hsib]
  unfold run
  simp only [hpath, hdir, rankWindows_singleton, Bool.false_eq_true, if_false,
    List.find?_cons, hnotopen, List.find?_nil, hsecond, hdispatch]

/-- Claim C4: with `orphan-sibling-opens-folder` on, a requested file whose
containing directory equals the containing directory of a file open in the
matched orphan window, and is not in the expanded never-implicit set, makes
`run` first attach that directory as a project folder and then open the file
with a sidebar reveal. -/
theorem claim_C4_orphan_sibling_promotion (fs : FS) (st : Settings) (home : Str)
    (w : Window) (fresh : Nat) (path : Str)
    (hsos : st.single_orphan_window = false)
    (hsib : st.orphan_sibling_opens_folder = true)
    (hpath : rstripSep path = path)
    (hdir : fs.isdir path = false)
    (horph : w.folders = [])
    (hnamed : ∀ v ∈ w.views, v.file.isSome)
    (hnotopen : w.findOpenFile path = false)
    (hmatch : w.views.any (fun v => v.file.map dirname == some (dirname path)) = true)
    (hguard : dirname path ∉ st.never_implicitly_open_folders.map (expanduser home)) :
    run fs st home [w] w.wid fresh path
      = .ok [Event.attachFolder w.wid (dirname path),
             Event.openFile w.wid path, Event.runCommand w.wid revealCmd] := by
  rw [orphan_sibling_run fs st home w fresh path hsos hsib hpath hdir horph
      hnamed hnotopen hmatch,
    if_neg hguard]
  rfl

/-- Witness for claim C4: an orphan window showing `/d/one.txt`, request
`/d/two.txt`, `~` in the never-implicit list but home is `/home/u`. -/
theorem claim_C4_witness :
    run ⟨[], []⟩ ⟨false, true, [str r"~"]⟩ (str r"/home/u")
      [⟨1, [], [⟨some (str r"/d/one.txt")⟩]⟩] 1 2 (str r"/d/two.txt")
      = .ok [Event.attachFolder 1 (str r"/d"),
             Event.openFile 1 (str r"/d/two.txt"), Event.runCommand 1 revealCmd] := by
  exact claim_C4_orphan_sibling_promotion ⟨[], []⟩ ⟨false, true, [str r"~"]⟩
    (str r"/home/u") ⟨1, [], [⟨some (str r"/d/one.txt")⟩]⟩ 2 (str r"/d/two.txt")
    rfl rfl (by decide) (by decide) rfl (by decide) (by decide) (by decide) (by decide)

/-- Claim C5: in the same orphan sibling scenario, when the containing
directory is in the expanded never-implicit set, no folder is attached — the
window's folder list is unchanged after the events — and the file is still
opened in the same orphan window with a sidebar reveal. -/
theorem claim_C5_never_implicit_guard (fs : FS) (st : Settings) (home : Str)
    (w : Window) (fresh : Nat) (path : Str)
    (hsos : st.single_orphan_window = false)
    (hsib : st.orphan_sibling_opens_folder = true)
    (hpath : rstripSep path = path)
    (hdir : fs.isdir path = false)
    (horph : w.folders = [])
    (hnamed : ∀ v ∈ w.views, v.file.isSome)
    (hnotopen : w.findOpenFile path = false)
    (hmatch : w.views.any (fun v => v.file.map dirname == some (dirname path)) = true)
    (hguard : dirname path ∈ st.never_implicitly_open_folders.map (expanduser home)) :
    run fs st home [w] w.wid fresh path
      = .ok [Event.openFile w.wid path, Event.runCommand w.wid revealCmd]
    ∧ ((applyEvents (initEW [w])
          [Event.openFile w.wid path, Event.runCommand w.wid revealCmd]).map
        (fun ew => ew.win.folders)) = [w.folders] := by
  constructor
  · rw [orphan_sibling_run fs st home w fresh path hsos hsib hpath hdir horph
        hnamed hnotopen hmatch,
      if_pos hguard]
    rfl
  · have hne : ¬ (revealCmd = closeCmd) := by decide
    simp only [applyEvents, List.foldl_cons, List.foldl_nil, applyEvent, if_neg hne,
      initEW, List.map_cons, List.map_nil]
    by_cases hmem : path ∈ openFilesOf w
    · simp [hmem]
    · simp [hmem]

/-- Witness for claim C5: home is `/d`, so the never-implicit entry `~`
expands to `/d`, the parent of the requested `/d/two.txt`. -/
theorem claim_C5_witness :
    run ⟨[], []⟩ ⟨false, true, [str r"~"]⟩ (str r"/d")
      [⟨1, [], [⟨some (str r"/d/one.txt")⟩]⟩] 1 2 (str r"/d/two.txt")
      = .ok [Event.openFile 1 (str r"/d/two.txt"), Event.runCommand 1 revealCmd]
    ∧ ((applyEvents (initEW [⟨1, [], [⟨some (str r"/d/one.txt")⟩]⟩])
          [Event.openFile 1 (str r"/d/two.txt"), Event.runCommand 1 revealCmd]).map
        (fun ew => ew.win.folders)) = [[]] := by
  exact claim_C5_never_implicit_guard ⟨[], []⟩ ⟨false, true, [str r"~"]⟩ (str r"/d")
    ⟨1, [], [⟨some (str r"/d/one.txt")⟩]⟩ 2 (str r"/d/two.txt")
    rfl rfl (by decide) (by decide) rfl (by decide) (by decide) (by decide) (by decide)

/-- Claim C10: the never-implicit guard of lines 131-135 is exact membership
of the file's parent directory in the expanded entry set, not containment:
`run` attaches the parent exactly when it is not itself a listed entry, and
concretely a parent `/usr/bin` that is a strict subdirectory of the listed
`/usr` is still attached. -/
theorem claim_C10_guard_exact_equality :
    (∀ (fs : FS) (st : Settings) (home : Str) (w : Window) (fresh : Nat) (path : Str),
      st.single_orphan_window = false →
      st.orphan_sibling_opens_folder = true →
      rstripSep path = path →
      fs.isdir path = false →
      w.folders = [] →
      (∀ v ∈ w.views, v.file.isSome) →
      w.findOpenFile path = false →
      w.views.any (fun v => v.file.map dirname == some (dirname path)) = true →
      run fs st home [w] w.wid fresh path
        = .ok ((if dirname path ∈ st.never_implicitly_open_folders.map (expanduser home)
                then []
                else [Event.attachFolder w.wid (dirname path)])
               ++ [Event.openFile w.wid path, Event.runCommand w.wid revealCmd]))
    ∧ run ⟨[], []⟩ ⟨false, true, [str r"/usr"]⟩ (str r"/home/u")
        [⟨1, [], [⟨some (str r"/usr/bin/g.txt")⟩]⟩] 1 2 (str r"/usr/bin/f.txt")
        = .ok [Event.attachFolder 1 (str r"/usr/bin"),
               Event.openFile 1 (str r"/usr/bin/f.txt"), Event.runCommand 1 revealCmd] :=
  ⟨fun fs st home w fresh path hsos hsib hpath hdir horph hnamed hnotopen hmatch =>
    orphan_sibling_run fs st home w fresh path hsos hsib hpath hdir horph
      hnamed hnotopen hmatch,
   rfl⟩

/-- Witness for claim C10: applying the general guard characterization at
the `/usr/bin` instance. -/
theorem claim_C10_witness :
    run ⟨[], []⟩ ⟨false, true, [str r"/usr"]⟩ (str r"/tmp/h")
      [⟨2, [], [⟨some (str r"/usr/bin/g.txt")⟩]⟩] 2 3 (str r"/usr/bin/f.txt")
      = .ok [Event.attachFolder 2 (str r"/usr/bin"),
             Event.openFile 2 (str r"/usr/bin/f.txt"), Event.runCommand 2 revealCmd] := by
  have h := claim_C10_guard_exact_equality.1 ⟨[], []⟩ ⟨false, true, [str r"/usr"]⟩
    (str r"/tmp/h") ⟨2, [], [⟨some (str r"/usr/bin/g.txt")⟩]⟩ 3 (str r"/usr/bin/f.txt")
    rfl rfl (by decide) (by decide) rfl (by decide) (by decide) (by decide)
  exact h

/-! ### Claims C6 and C7: the directory-reveal walk -/

theorem pySorted_ne_nil {le : α → α → Bool} {l : List α} (h : l ≠ []) :
    pySorted le l ≠ [] := by
  cases l with
  | nil => exact absurd rfl h
  | cons x xs =>
    intro hnil
    have hx : x ∈ pySorted le (x :: xs) := pySorted_mem.mpr (List.mem_cons_self x xs)
    rw [hnil] at hx
    exact List.not_mem_nil x hx

theorem sortedFirstOpen_eq_none (w : Window) (root : Str) (files : List Str)
    (h : ∀ fn ∈ files, w.findOpenFile (joinPath root fn) = false) :
    sortedFirstOpen w root files = none := by
  rw [sortedFirstOpen, List.findSome?_eq_none_iff]
  intro fn hfn
  have hmem : fn ∈ files := pySorted_mem.mp hfn
  simp [h fn hmem]

theorem not_mem_openFiles_of_not_found {w : Window} {p : Str}
    (h : w.findOpenFile p = false) : p ∉ openFilesOf w := by
  intro hm
  obtain ⟨v, hv, hvf⟩ := List.mem_filterMap.mp hm
  rw [Window.findOpenFile, List.any_eq_false] at h
  exact h v hv (by simp [hvf])

theorem scanNextEvents_eq_nil (w : Window)
    (L : List (Str × List Str × List Str))
    (h : ∀ t ∈ L, ∀ fn ∈ t.2.2, w.findOpenFile (joinPath t.1 fn) = false) :
    scanNextEvents w L = [] := by
  cases L with
  | nil => rfl
  | cons t rest =>
    obtain ⟨root, ds, files⟩ := t
    rw [scanNextEvents,
      sortedFirstOpen_eq_none w root files (h _ (List.mem_cons_self _ _))]

theorem walkReveal_no_open (w : Window) (path : Str) :
    ∀ (L : List (Str × List Str × List Str)),
      (∀ t ∈ L, ∀ fn ∈ t.2.2, w.findOpenFile (joinPath t.1 fn) = false) →
      (∃ t ∈ L, t.2.2 ≠ []) →
      ∃ t ∈ L, ∃ fn ∈ t.2.2,
        walkReveal w path L
          = [Event.openFile w.wid (joinPath t.1 fn),
             Event.runCommand w.wid revealCmd, Event.runCommand w.wid closeCmd]
  | [], _, hex => by simp at hex
  | (root, ds, files) :: rest, hno, hex => by
    have hfirst : sortedFirstOpen w root files = none :=
      sortedFirstOpen_eq_none w root files (hno _ (List.mem_cons_self _ _))
    by_cases hf : files = []
    · have hex' : ∃ t ∈ rest, t.2.2 ≠ [] := by
        obtain ⟨t, ht, hne⟩ := hex
        rcases List.mem_cons.mp ht with rfl | ht'
        · exact absurd hf hne
        · exact ⟨t, ht', hne⟩
      obtain ⟨t, ht, fn, hfn, heq⟩ := walkReveal_no_open w path rest
        (fun t ht => hno t (List.mem_cons_of_mem _ ht)) hex'
      refine ⟨t, List.mem_cons_of_mem _ ht, fn, hfn, ?_⟩
      rw [walkReveal, hfirst]
      simp only [hf, ne_eq, not_true_eq_false, if_false]
      exact heq
    · obtain ⟨f0, frest, hsorted⟩ := List.exists_cons_of_ne_nil (@pySorted_ne_nil _ strLe files hf)
      have hf0 : f0 ∈ files := pySorted_mem.mp (hsorted ▸ List.mem_cons_self f0 frest)
      refine ⟨(root, ds, files), List.mem_cons_self _ _, f0, hf0, ?_⟩
      rw [walkReveal, hfirst]
      simp only [hf, ne_eq, not_false_eq_true, if_true, hsorted,
        scanNextEvents_eq_nil w rest (fun t ht => hno t (List.mem_cons_of_mem _ ht)),
        List.append_nil]

theorem dir_match_run (fs : FS) (st : Settings) (home : Str) (w : Window)
    (fresh : Nat) (path : Str)
    (hpath : rstripSep path = path)
    (hdir : fs.isdir path = true)
    (hfold : path ∈ w.folders) :
    run fs st home [w] w.wid fresh path = .ok (walkReveal w path (fs.walk path)) := by
  have hfolders : windowFolders st w = .ok (true, w.folders) := by
    rw [windowFolders, if_pos (List.ne_nil_of_mem hfold)]
  have hunder : isUnderOrEqual path path = true :=
    (isUnderOrEqual_iff_descendant path path).mpr (Or.inl rfl)
  have hany : w.folders.any (matchCond true path path true) = true := by
    rw [List.any_eq_true]
    exact ⟨path, hfold, by simp [matchCond, hunder]⟩
  have hdisp : dispatchEvents st fs (st.never_implicitly_open_folders.map (expanduser home))
      true path (dirname path) w.wid w true w.folders
      = walkReveal w path (fs.walk path) := by
    rw [dispatchEvents]
    simp [hfold]
  have hsecond : secondPhase st fs (st.never_implicitly_open_folders.map (expanduser home))
      true path path (dirname path) w.wid [w]
      = .ok (some (dispatchEvents st fs
          (st.never_implicitly_open_folders.map (expanduser home))
          true path (dirname path) w.wid w true w.folders)) := by
    rw [secondPhase, hfolders]
    simp only [hany, if_true]
  unfold run
  simp only [hpath, hdir, rankWindows_singleton, if_true, hsecond, hdisp]

theorem open_reveal_close_noop (w : Window) (fp : Str)
    (hviews : ∀ v ∈ w.views, ¬ ((v.file == some fp) = true)) :
    (applyEvents (initEW [w])
      [Event.openFile w.wid fp, Event.runCommand w.wid revealCmd,
       Event.runCommand w.wid closeCmd]).map (fun ew => openFilesOf ew.win)
      = [openFilesOf w] := by
  have hnotmem : fp ∉ openFilesOf w := by
    intro hm
    obtain ⟨v, hv, hvf⟩ := List.mem_filterMap.mp hm
    exact hviews v hv (by simp [hvf])
  have e1 : applyEvent (initEW [w]) (Event.openFile w.wid fp)
      = [⟨{ w with views := w.views ++ [⟨some fp⟩] }, some fp⟩] := by
    simp [applyEvent, initEW, hnotmem]
  have e2 : applyEvent [(⟨{ w with views := w.views ++ [⟨some fp⟩] }, some fp⟩ : EWindow)]
      (Event.runCommand w.wid revealCmd)
      = [⟨{ w with views := w.views ++ [⟨some fp⟩] }, some fp⟩] := by
    simp only [applyEvent]
    rw [if_neg (by decide)]
  have e3 : applyEvent [(⟨{ w with views := w.views ++ [⟨some fp⟩] }, some fp⟩ : EWindow)]
      (Event.runCommand w.wid closeCmd)
      = [⟨{ w with views := w.views }, none⟩] := by
    simp only [applyEvent, eq_self_iff_true, if_true, List.map_cons, List.map_nil,
      Option.isSome_some, and_self]
    rw [List.eraseP_append_right _ hviews]
    simp
  rw [applyEvents, List.foldl_cons, e1, List.foldl_cons, e2, List.foldl_cons, e3,
    List.foldl_nil]
  simp [openFilesOf]

/-- Claim C6: requesting a directory that is already a folder of the matched
project window, when no file of the directory tree is open in that window but
the tree contains some file, issues exactly one open followed by one reveal
and one close on that same opened path, and the window's open-file set is
unchanged afterwards. -/
theorem claim_C6_reveal_noop (fs : FS) (st : Settings) (home : Str) (w : Window)
    (fresh : Nat) (path : Str)
    (hpath : rstripSep path = path)
    (hdir : fs.isdir path = true)
    (hfold : path ∈ w.folders)
    (hno : ∀ t ∈ fs.walk path, ∀ fn ∈ t.2.2, w.findOpenFile (joinPath t.1 fn) = false)
    (hex : ∃ t ∈ fs.walk path, t.2.2 ≠ []) :
    ∃ fp ∈ fs.walkFiles path,
      run fs st home [w] w.wid fresh path
        = .ok [Event.openFile w.wid fp, Event.runCommand w.wid revealCmd,
               Event.runCommand w.wid closeCmd]
      ∧ ((applyEvents (initEW [w])
            [Event.openFile w.wid fp, Event.runCommand w.wid revealCmd,
             Event.runCommand w.wid closeCmd]).map (fun ew => openFilesOf ew.win))
          = [openFilesOf w] := by
  obtain ⟨t, ht, fn, hfn, heq⟩ := walkReveal_no_open w path (fs.walk path) hno hex
  have hviews : ∀ v ∈ w.views, ¬ ((v.file == some (joinPath t.1 fn)) = true) := by
    have h := hno t ht fn hfn
    rw [Window.findOpenFile, List.any_eq_false] at h
    exact h
  refine ⟨joinPath t.1 fn, ?_, ?_, ?_⟩
  · rw [FS.walkFiles]
    exact List.mem_flatMap.mpr ⟨t, ht, List.mem_map.mpr ⟨fn, hfn, rfl⟩⟩
  · rw [dir_match_run fs st home w fresh path hpath hdir hfold, heq]
  · exact open_reveal_close_noop w (joinPath t.1 fn) hviews

/-- Witness for claim C6: project window on `/p`, `/p` holding `b.txt` and
`a.txt` with neither open; the sorted-first `a.txt` is opened, revealed and
closed again. -/
theorem claim_C6_witness :
    ∃ fp ∈ FS.walkFiles ⟨[str r"/p"], [(str r"/p", [(str r"/p", [], [str r"b.txt", str r"a.txt"])])]⟩ (str r"/p"),
      run ⟨[str r"/p"], [(str r"/p", [(str r"/p", [], [str r"b.txt", str r"a.txt"])])]⟩
          ⟨false, true, []⟩ (str r"/home/u") [⟨1, [str r"/p"], [⟨some (str r"/q/w.txt")⟩]⟩]
          1 2 (str r"/p")
        = .ok [Event.openFile 1 fp, Event.runCommand 1 revealCmd,
               Event.runCommand 1 closeCmd]
      ∧ ((applyEvents (initEW [⟨1, [str r"/p"], [⟨some (str r"/q/w.txt")⟩]⟩])
            [Event.openFile 1 fp, Event.runCommand 1 revealCmd,
             Event.runCommand 1 closeCmd]).map (fun ew => openFilesOf ew.win))
          = [openFilesOf ⟨1, [str r"/p"], [⟨some (str r"/q/w.txt")⟩]⟩] := by
  exact claim_C6_reveal_noop
    ⟨[str r"/p"], [(str r"/p", [(str r"/p", [], [str r"b.txt", str r"a.txt"])])]⟩
    ⟨false, true, []⟩ (str r"/home/u") ⟨1, [str r"/p"], [⟨some (str r"/q/w.txt")⟩]⟩
    2 (str r"/p") (by decide) (by decide) (by decide) (by decide)
    ⟨(str r"/p", [], [str r"b.txt", str r"a.txt"]), by decide, by decide⟩

/-- Claim C7 counterexample: with `/d` holding the file `z` and the subdir
`a` holding `a.txt`, nothing open, the code opens `/d/z` — the sorted-first
file of the first walk triple — even though `/d/a/a.txt` is in the tree and
is lexicographically smaller, so the claim that the lexicographically-first
file found anywhere in the tree is opened is false. -/
theorem claim_C7_counterexample :
    run ⟨[str r"/d"],
         [(str r"/d", [(str r"/d", [str r"a"], [str r"z"]),
                       (str r"/d/a", [], [str r"a.txt"])])]⟩
        ⟨false, true, []⟩ (str r"/home/u") [⟨1, [str r"/d"], []⟩] 1 2 (str r"/d")
      = .ok [Event.openFile 1 (str r"/d/z"), Event.runCommand 1 revealCmd,
             Event.runCommand 1 closeCmd]
    ∧ (str r"/d/a/a.txt") ∈ FS.walkFiles ⟨[str r"/d"],
         [(str r"/d", [(str r"/d", [str r"a"], [str r"z"]),
                       (str r"/d/a", [], [str r"a.txt"])])]⟩ (str r"/d")
    ∧ strLt (str r"/d/a/a.txt") (str r"/d/z") = true
    ∧ (str r"/d/z") ≠ (str r"/d/a/a.txt") :=
  ⟨rfl, by decide, rfl, by decide⟩

theorem walkReveal_skip_empty (w : Window) (path : Str) :
    ∀ (A L : List (Str × List Str × List Str)), (∀ t ∈ A, t.2.2 = []) →
      walkReveal w path (A ++ L) = walkReveal w path L
  | [], _, _ => rfl
  | (root, ds, files) :: A', L, h => by
    have hfl : files = [] := h _ (List.mem_cons_self _ _)
    subst hfl
    rw [List.cons_append, walkReveal]
    simp only [sortedFirstOpen, pySorted, List.foldl_nil, List.findSome?_nil,
      ne_eq, not_true_eq_false, if_false]
    exact walkReveal_skip_empty w path A' L (fun t ht => h t (List.mem_cons_of_mem _ ht))

theorem walkReveal_cons_ne (w : Window) (path root : Str) (ds : List Str)
    (files : List Str) (B : List (Str × List Str × List Str)) (hne : files ≠ []) :
    walkReveal w path ((root, ds, files) :: B)
      = match sortedFirstOpen w root files with
        | some fp => [Event.focusView w.wid fp, Event.runCommand w.wid revealCmd]
        | none =>
          (match pySorted strLe files with
           | f0 :: _ => [Event.openFile w.wid (joinPath root f0),
                         Event.runCommand w.wid revealCmd,
                         Event.runCommand w.wid closeCmd]
           | [] => []) ++ scanNextEvents w B := by
  rw [walkReveal]
  cases h : sortedFirstOpen w root files with
  | some fp => simp only [h]
  | none => simp only [h, hne, ne_eq, not_false_eq_true, if_true]

/-- Claim C7, amended: the walk visits the `os.walk` triples in snapshot
order, with only file names sorted inside a triple.  Let `T` be the first
triple whose file list is non-empty (earlier triples hold no files at all).
If some sorted file of `T` is open in the window, the first such file is
focused and revealed; otherwise the sorted-first file of `T` is opened,
revealed and closed, after which the single next triple is scanned for an
open file to focus.  The lexicographically-first file of the whole tree
plays no role. -/
theorem claim_C7_amended (fs : FS) (st : Settings) (home : Str) (w : Window)
    (fresh : Nat) (path : Str) (A : List (Str × List Str × List Str))
    (root : Str) (ds : List Str) (files : List Str)
    (B : List (Str × List Str × List Str))
    (hpath : rstripSep path = path)
    (hdir : fs.isdir path = true)
    (hfold : path ∈ w.folders)
    (hsplit : fs.walk path = A ++ (root, ds, files) :: B)
    (hA : ∀ t ∈ A, t.2.2 = ([] : List Str))
    (hne : files ≠ []) :
    run fs st home [w] w.wid fresh path
      = .ok (match sortedFirstOpen w root files with
        | some fp => [Event.focusView w.wid fp, Event.runCommand w.wid revealCmd]
        | none =>
          (match pySorted strLe files with
           | f0 :: _ => [Event.openFile w.wid (joinPath root f0),
                         Event.runCommand w.wid revealCmd,
                         Event.runCommand w.wid closeCmd]
           | [] => []) ++ scanNextEvents w B) := by
  rw [dir_match_run fs st home w fresh path hpath hdir hfold, hsplit,
    walkReveal_skip_empty w path A _ hA, walkReveal_cons_ne w path root ds files B hne]

/-- Witness for claim C7: the amended characterization applied at the
counterexample snapshot reproduces the concrete trace. -/
theorem claim_C7_witness :
    run ⟨[str r"/d"],
         [(str r"/d", [(str r"/d", [str r"a"], [str r"z"]),
                       (str r"/d/a", [], [str r"a.txt"])])]⟩
        ⟨false, true, []⟩ (str r"/home/u") [⟨1, [str r"/d"], []⟩] 1 3 (str r"/d")
      = .ok [Event.openFile 1 (str r"/d/z"), Event.runCommand 1 revealCmd,
             Event.runCommand 1 closeCmd] := by
  have h := claim_C7_amended
    ⟨[str r"/d"],
     [(str r"/d", [(str r"/d", [str r"a"], [str r"z"]),
                   (str r"/d/a", [], [str r"a.txt"])])]⟩
    ⟨false, true, []⟩ (str r"/home/u") ⟨1, [str r"/d"], []⟩ 3 (str r"/d")
    [] (str r"/d") [str r"a"] [str r"z"] [(str r"/d/a", [], [str r"a.txt"])]
    (by decide) (by decide) (by decide) rfl (by simp) (by decide)
  exact h

/-! ### Claim C8: focus on an already-open file is idempotent -/

theorem run_focus_hit (fs : FS) (st : Settings) (home : Str)
    (windows : List Window) (active fresh : Nat) (path : Str) (w : Window)
    (hdir : fs.isdir (rstripSep path) = false)
    (hfind : (rankWindows active windows).find?
        (fun w' => w'.findOpenFile (rstripSep path)) = some w) :
    run fs st home windows active fresh path
      = .ok ([Event.focusView w.wid (rstripSep path)]
             ++ (if w.wid ≠ active then [Event.focusWin w.wid] else [])) := by
  unfold run
  simp only [hdir, Bool.false_eq_true, if_false, hfind]

theorem applyEvent_focusWin (ews : List EWindow) (wid : Nat) :
    applyEvent ews (Event.focusWin wid) = ews := rfl

theorem applyEvent_focusView_win (ews : List EWindow) (wid : Nat) (p : Str) :
    (applyEvent ews (Event.focusView wid p)).map (fun ew => ew.win)
      = ews.map (fun ew => ew.win) := by
  simp only [applyEvent, List.map_map]
  apply List.map_congr_left
  intro ew _
  by_cases h : ew.win.wid = wid <;> simp [h, Function.comp]

theorem applyEvents_focus_only (ws : List Window) (w : Window) (p : Str) (active : Nat) :
    ((applyEvents (initEW ws)
        ([Event.focusView w.wid p]
         ++ (if w.wid ≠ active then [Event.focusWin w.wid] else []))).map
      (fun ew => ew.win)) = ws := by
  have hinit : (initEW ws).map (fun ew => ew.win) = ws := by
    rw [initEW, List.map_map]
    have hcomp : ((fun ew : EWindow => ew.win) ∘ fun w => (⟨w, none⟩ : EWindow)) = id := rfl
    rw [hcomp, List.map_id]
  by_cases h : w.wid ≠ active
  · rw [if_pos h]
    show ((applyEvents (initEW ws)
        [Event.focusView w.wid p, Event.focusWin w.wid]).map (fun ew => ew.win)) = ws
    rw [applyEvents, List.foldl_cons, List.foldl_cons, List.foldl_nil,
      applyEvent_focusWin, applyEvent_focusView_win, hinit]
  · rw [if_neg h]
    show ((applyEvents (initEW ws)
        [Event.focusView w.wid p]).map (fun ew => ew.win)) = ws
    rw [applyEvents, List.foldl_cons, List.foldl_nil, applyEvent_focusView_win, hinit]

/-- Claim C8: when the requested file path is already open in some window,
`run` focuses the existing view of the first such window in rank order and
opens nothing; the events leave the snapshot unchanged, so resolving again
immediately afterwards produces the same focus on the same window. -/
theorem claim_C8_focus_idempotent (fs : FS) (st : Settings) (home : Str)
    (windows : List Window) (active fresh : Nat) (path : Str) (w : Window)
    (hdir : fs.isdir (rstripSep path) = false)
    (hfind : (rankWindows active windows).find?
        (fun w' => w'.findOpenFile (rstripSep path)) = some w) :
    run fs st home windows active fresh path
      = .ok ([Event.focusView w.wid (rstripSep path)]
             ++ (if w.wid ≠ active then [Event.focusWin w.wid] else []))
    ∧ run fs st home
        ((applyEvents (initEW windows)
           ([Event.focusView w.wid (rstripSep path)]
            ++ (if w.wid ≠ active then [Event.focusWin w.wid] else []))).map
          (fun ew => ew.win))
        active fresh path
      = .ok ([Event.focusView w.wid (rstripSep path)]
             ++ (if w.wid ≠ active then [Event.focusWin w.wid] else [])) := by
  have h1 := run_focus_hit fs st home windows active fresh path w hdir hfind
  refine ⟨h1, ?_⟩
  rw [applyEvents_focus_only]
  exact h1

/-- Witness for claim C8: one window already showing `/f/a.txt`; both the
first and the second resolution of `/f/a.txt` yield the same single focus
event. -/
theorem claim_C8_witness :
    run ⟨[], []⟩ ⟨false, true, []⟩ (str r"/home/u")
        [⟨1, [], [⟨some (str r"/f/a.txt")⟩]⟩] 1 2 (str r"/f/a.txt")
      = .ok [Event.focusView 1 (str r"/f/a.txt")]
    ∧ run ⟨[], []⟩ ⟨false, true, []⟩ (str r"/home/u")
        ((applyEvents (initEW [⟨1, [], [⟨some (str r"/f/a.txt")⟩]⟩])
            [Event.focusView 1 (str r"/f/a.txt")]).map (fun ew => ew.win)) 1 2
        (str r"/f/a.txt")
      = .ok [Event.focusView 1 (str r"/f/a.txt")] := by
  have h := claim_C8_focus_idempotent ⟨[], []⟩ ⟨false, true, []⟩ (str r"/home/u")
    [⟨1, [], [⟨some (str r"/f/a.txt")⟩]⟩] 1 2 (str r"/f/a.txt")
    ⟨1, [], [⟨some (str r"/f/a.txt")⟩]⟩ (by decide) (by decide)
  exact ⟨h.1, h.2⟩
